import Mathlib

/-!
Verification of the HLA-typing result aggregation scripts
(merge_results.py and generate_html_table.py).

Strings are modelled as lists of characters; Python dicts (which preserve
insertion order) are modelled as association lists with in-place update.
Abundance percentages, produced by parsing decimal numerals such as
"55.50", are modelled as exact rationals; the numerals occurring in this
format are exactly representable, so this matches the Python float values.
Character classes of the report regex are modelled over ASCII, which is the
alphabet the report format uses.
-/

/-- Strings of the scripts, as lists of characters. -/
abbrev Str := List Char

/-- View a Lean string literal as a list of characters. -/
def ofStr (s : String) : Str := s.data

/-- ASCII whitespace, the characters stripped by the scripts
(space, tab, newline, carriage return, vertical tab, form feed). -/
def isWS (c : Char) : Bool :=
  c = ' ' || c = '\t' || c = '\n' || c = '\r' || c = '\x0b' || c = '\x0c'

/-- Decimal digit character, the regex class of digits. -/
def isDigitCh (c : Char) : Bool :=
  48 ≤ c.toNat && c.toNat ≤ 57

/-- Gene-token character: uppercase letter or digit. -/
def isGeneCh (c : Char) : Bool :=
  (65 ≤ c.toNat && c.toNat ≤ 90) || isDigitCh c

/-- Abundance-token character: digit or dot. -/
def isAbCh (c : Char) : Bool :=
  isDigitCh c || c = '.'

/-- Numeric value of a digit character. -/
def digitVal (c : Char) : Nat := c.toNat - 48

/-- Value of a digit string, as Python int() reads the rank group. -/
def digitsToNat (s : Str) : Nat :=
  s.foldl (fun n c => n * 10 + digitVal c) 0

/-- Value of a decimal numeral such as 55.50, as Python float() reads the
abundance group (exact on the numerals this format produces). -/
def parseFloat (s : Str) : Rat :=
  let ip := s.takeWhile (fun c => c ≠ '.')
  match s.dropWhile (fun c => c ≠ '.') with
  | [] => mkRat (digitsToNat ip) 1
  | _ :: frac => mkRat (digitsToNat ip * 10 ^ frac.length + digitsToNat frac) (10 ^ frac.length)

/-- Python str.strip(): drop whitespace from both ends. -/
def pstrip (s : Str) : Str :=
  ((s.dropWhile isWS).reverse.dropWhile isWS).reverse

/-- Python str.split on a tab: split into fields, keeping empty fields. -/
def splitTab : Str → List Str
  | [] => [[]]
  | c :: rest =>
      if c = '\t' then [] :: splitTab rest
      else
        match splitTab rest with
        | f :: fs => (c :: f) :: fs
        | [] => [[c]]

/-- Lookup in an insertion-ordered dictionary (Python dict membership / access). -/
def dfind {β : Type} : List (Str × β) → Str → Option β
  | [], _ => none
  | (k, v) :: rest, key => if k = key then some v else dfind rest key

/-- Assignment in an insertion-ordered dictionary: update the existing key in
place, else append at the end (Python dict assignment). -/
def dset {β : Type} : List (Str × β) → Str → β → List (Str × β)
  | [], key, v => [(key, v)]
  | (k, w) :: rest, key, v =>
      if k = key then (k, v) :: rest else (k, w) :: dset rest key v

/-- Keys of a dictionary in insertion order. -/
def dkeys {β : Type} (d : List (Str × β)) : List Str :=
  d.map Prod.fst

/-- One match of the ranked-report regex
  (\d+) ranked ([A-Z0-9]+)\*([^\s]+) \(abundance: ([\d.]+)%\)
with its four capture groups, still as raw text. -/
structure RMatch where
  rank : Str
  gene : Str
  allele : Str
  abundance : Str
deriving DecidableEq, Repr

/-- Consume a literal piece of the pattern; none if the text differs. -/
def dropLit : Str → Str → Option Str
  | [], s => some s
  | _ :: _, [] => none
  | c :: cs, x :: xs => if x = c then dropLit cs xs else none

/-- Try the ranked-report regex anchored at the start of the text.  Every
repeated class of the pattern is followed by a character outside the class,
so greedy maximal munch is exactly the regex backtracking semantics. -/
def matchAt (s : Str) : Option (RMatch × Str) :=
  let rank := s.takeWhile isDigitCh
  if rank = [] then none else
  match dropLit (ofStr " ranked ") (s.dropWhile isDigitCh) with
  | none => none
  | some s2 =>
    let gene := s2.takeWhile isGeneCh
    if gene = [] then none else
    match s2.dropWhile isGeneCh with
    | '*' :: s4 =>
      let allele := s4.takeWhile (fun c => !(isWS c))
      if allele = [] then none else
      match dropLit (ofStr " (abundance: ") (s4.dropWhile (fun c => !(isWS c))) with
      | none => none
      | some s6 =>
        let ab := s6.takeWhile isAbCh
        if ab = [] then none else
        match dropLit (ofStr "%)") (s6.dropWhile isAbCh) with
        | none => none
        | some s8 => some ({ rank := rank, gene := gene, allele := allele, abundance := ab }, s8)
    | _ => none

/-- Scan the text left to right collecting non-overlapping matches, as
re.findall does: at each position try the pattern, on success continue
after the match, on failure advance one character.  Fuelled by the length
of the text, which each step strictly decreases. -/
def scanFrom : Nat → Str → List RMatch
  | 0, _ => []
  | _, [] => []
  | Nat.succ fuel, c :: rest =>
      match matchAt (c :: rest) with
      | some (m, rem) => m :: scanFrom fuel rem
      | none => scanFrom fuel rest

/-- All matches of the ranked-report regex in the text, in text order. -/
def findRanked (s : Str) : List RMatch :=
  scanFrom s.length s

/-- One ranked allele call: the dict with rank, allele and abundance built
by both ranked-report extractors. -/
structure RankedCall where
  rank : Nat
  allele : Str
  abundance : Rat
deriving DecidableEq, Repr

/-- The allele-call dict built by parse_report_file (generate_html_table.py):
the allele group alone, unprefixed. -/
def reportCall (m : RMatch) : RankedCall :=
  { rank := digitsToNat m.rank, allele := m.allele, abundance := parseFloat m.abundance }

/-- Loop body of parse_report_file: create the gene key if absent, then
append the call. -/
def reportStep (results : List (Str × List RankedCall)) (m : RMatch) :
    List (Str × List RankedCall) :=
  let results := if (dfind results m.gene).isNone then dset results m.gene [] else results
  dset results m.gene ((dfind results m.gene).getD [] ++ [reportCall m])

/-- parse_report_file (generate_html_table.py): fold every regex match of the
report text into a gene-keyed dict. -/
def parse_report_file (content : Str) : List (Str × List RankedCall) :=
  (findRanked content).foldl reportStep []

/-- The allele-call dict built by parse_hisat_report (merge_results.py):
allele formatted as HLA-GENE*allele. -/
def hisatCall (m : RMatch) : RankedCall :=
  { rank := digitsToNat m.rank
    allele := ofStr "HLA-" ++ m.gene ++ ofStr "*" ++ m.allele
    abundance := parseFloat m.abundance }

/-- Loop body of parse_hisat_report: create the gene key if absent, then
append the call only when its rank is at most 2. -/
def hisatStep (results : List (Str × List RankedCall)) (m : RMatch) :
    List (Str × List RankedCall) :=
  let results := if (dfind results m.gene).isNone then dset results m.gene [] else results
  if digitsToNat m.rank ≤ 2 then
    dset results m.gene ((dfind results m.gene).getD [] ++ [hisatCall m])
  else results

/-- parse_hisat_report (merge_results.py): fold every regex match of the
report text into a gene-keyed dict, keeping only ranks 1 and 2. -/
def parse_hisat_report (content : Str) : List (Str × List RankedCall) :=
  (findRanked content).foldl hisatStep []

/-- Sentinel text meaning no call in an estimation allele column. -/
def strDash : Str := ofStr "-"

/-- Sentinel text meaning no call in an estimation allele column. -/
def strNotTyped : Str := ofStr "Not typed"

/-- Calls of one estimation line: the stripped columns 1 and 2, each kept
only when non-empty and not a sentinel (the two conditional appends of
parse_estimation_result, starting from a fresh empty list). -/
def estCalls (allele1 allele2 : Str) : List Str :=
  (if allele1 ≠ [] ∧ allele1 ≠ strDash ∧ allele1 ≠ strNotTyped then [allele1] else []) ++
  (if allele2 ≠ [] ∧ allele2 ≠ strDash ∧ allele2 ≠ strNotTyped then [allele2] else [])

/-- Loop body of parse_estimation_result: strip the line, skip it when blank,
split on tabs, and when at least 3 columns are present assign the gene a
fresh list holding the non-sentinel alleles. -/
def estStep (results : List (Str × List Str)) (line : Str) : List (Str × List Str) :=
  let line := pstrip line
  if line = [] then results
  else
    match splitTab line with
    | g :: a1 :: a2 :: _ => dset results (pstrip g) (estCalls (pstrip a1) (pstrip a2))
    | _ => results

/-- parse_estimation_result (merge_results.py), over the lines of the file. -/
def parse_estimation_result (lines : List Str) : List (Str × List Str) :=
  lines.foldl estStep []

/-- The fixed normalization prefix HLA- . -/
def strHLA : Str := ofStr "HLA-"

/-- The two column suffixes of the OptiType table. -/
def oneTwo : List Str := [ofStr "1", ofStr "2"]

/-- The three fixed gene codes of the OptiType table. -/
def genesABC : List Str := [ofStr "A", ofStr "B", ofStr "C"]

/-- Inner loop of parse_optitype_result for one gene of one row: collect the
values of columns GENE1 and GENE2 that are present and non-empty, stripped
and HLA-prefixed. -/
def optCollect (row : List (Str × Str)) (gene : Str) : List Str :=
  oneTwo.foldl
    (fun alleles i =>
      let col := gene ++ i
      match dfind row col with
      | some v =>
          if v ≠ [] then
            let allele := pstrip v
            if allele ≠ [] then alleles ++ [strHLA ++ allele] else alleles
          else alleles
      | none => alleles)
    []

/-- Gene step of the row loop of parse_optitype_result: assign the collected
alleles of one gene when any were found. -/
def optGeneStep (row : List (Str × Str)) (results : List (Str × List Str))
    (gene : Str) : List (Str × List Str) :=
  let alleles := optCollect row gene
  if alleles ≠ [] then dset results gene alleles else results

/-- Row loop body of parse_optitype_result: for each of the genes A, B, C
assign the collected alleles when any were found. -/
def optStep (results : List (Str × List Str)) (row : List (Str × Str)) :
    List (Str × List Str) :=
  genesABC.foldl (optGeneStep row) results

/-- parse_optitype_result (merge_results.py), over the DictReader rows of the
result TSV; none models the early returns when the sample directory or the
TSV file does not exist. -/
def parse_optitype_result : Option (List (List (Str × Str))) → List (Str × List Str)
  | none => []
  | some rows => rows.foldl optStep []

/-- Loop body of parse_hlala_result: strip the line, skip it when blank,
split on tabs; with at least 3 columns, take gene from column 0 and allele
from column 2, remove every G character from the allele, create the gene
key if absent, HLA-prefix the allele when not already prefixed, append. -/
def hlalaStep (results : List (Str × List Str)) (line : Str) : List (Str × List Str) :=
  let line := pstrip line
  if line = [] then results
  else
    match splitTab line with
    | g :: _ :: a :: _ =>
        let gene := pstrip g
        let allele := pstrip a
        let allele := pstrip (allele.filter (fun c => c ≠ 'G'))
        let results := if (dfind results gene).isNone then dset results gene [] else results
        let allele := if strHLA.isPrefixOf allele then allele else strHLA ++ allele
        dset results gene ((dfind results gene).getD [] ++ [allele])
    | _ => results

/-- parse_hlala_result (merge_results.py): skip the header line, fold the
remaining lines; none models the early return when the bestguess file does
not exist. -/
def parse_hlala_result : Option (List Str) → List (Str × List Str)
  | none => []
  | some lines => (lines.drop 1).foldl hlalaStep []

/-- Lexicographic order on strings by character code point, the order Python
string comparison and sorted() use. -/
def lexLe : Str → Str → Bool
  | [], _ => true
  | _ :: _, [] => false
  | a :: as, b :: bs =>
      if a.toNat < b.toNat then true
      else if b.toNat < a.toNat then false
      else lexLe as bs

theorem lexLe_cons (a b : Char) (as bs : Str) :
    lexLe (a :: as) (b :: bs) = true ↔
      a.toNat < b.toNat ∨ (a.toNat = b.toNat ∧ lexLe as bs = true) := by
  simp only [lexLe]
  rcases Nat.lt_trichotomy a.toNat b.toNat with h | h | h
  · rw [if_pos h]
    simp [h]
  · rw [if_neg (by omega), if_neg (by omega)]
    constructor
    · intro hl
      exact Or.inr ⟨h, hl⟩
    · rintro (hlt | ⟨_, hl⟩)
      · omega
      · exact hl
  · rw [if_neg (by omega), if_pos h]
    constructor
    · intro hf
      cases hf
    · rintro (hlt | ⟨he, _⟩) <;> omega

theorem lexLe_total : ∀ a b : Str, lexLe a b = true ∨ lexLe b a = true
  | [], _ => Or.inl rfl
  | _ :: _, [] => Or.inr rfl
  | a :: as, b :: bs => by
      rw [lexLe_cons, lexLe_cons]
      rcases Nat.lt_trichotomy a.toNat b.toNat with h | h | h
      · exact Or.inl (Or.inl h)
      · rcases lexLe_total as bs with hl | hl
        · exact Or.inl (Or.inr ⟨h, hl⟩)
        · exact Or.inr (Or.inr ⟨h.symm, hl⟩)
      · exact Or.inr (Or.inl h)

theorem lexLe_trans :
    ∀ a b c : Str, lexLe a b = true → lexLe b c = true → lexLe a c = true
  | [], _, _, _, _ => rfl
  | _ :: _, [], _, h, _ => by simp [lexLe] at h
  | _ :: _, _ :: _, [], _, h => by simp [lexLe] at h
  | a :: as, b :: bs, c :: cs, h1, h2 => by
      rw [lexLe_cons] at h1 h2 ⊢
      rcases h1 with h1 | ⟨e1, h1⟩
      · rcases h2 with h2 | ⟨e2, h2⟩
        · exact Or.inl (by omega)
        · exact Or.inl (by omega)
      · rcases h2 with h2 | ⟨e2, h2⟩
        · exact Or.inl (by omega)
        · exact Or.inr ⟨by omega, lexLe_trans as bs cs h1 h2⟩

/-- String order as a proposition, for the sorting lemmas. -/
def strLe (a b : Str) : Prop := lexLe a b = true

instance : DecidableRel strLe := fun a b =>
  inferInstanceAs (Decidable (lexLe a b = true))

instance : IsTotal Str strLe := ⟨lexLe_total⟩

instance : IsTrans Str strLe := ⟨lexLe_trans⟩

/-- Python sorted() on a list of strings: stable sort in lexicographic order. -/
def pySortedStr (l : List Str) : List Str := List.insertionSort strLe l

/-- Order on ranked calls by allele name, the sort key of the per-sample view. -/
def allLe (x y : RankedCall) : Prop := strLe x.allele y.allele

instance : DecidableRel allLe := fun x y =>
  inferInstanceAs (Decidable (lexLe x.allele y.allele = true))

instance : IsTotal RankedCall allLe := ⟨fun x y => lexLe_total x.allele y.allele⟩

instance : IsTrans RankedCall allLe :=
  ⟨fun x y z => lexLe_trans x.allele y.allele z.allele⟩

/-- Order on ranked calls by rank, the in-place sort key of the cross-sample view. -/
def rankLe (x y : RankedCall) : Prop := x.rank ≤ y.rank

instance : DecidableRel rankLe := fun x y =>
  inferInstanceAs (Decidable (x.rank ≤ y.rank))

instance : IsTotal RankedCall rankLe := ⟨fun x y => Nat.le_total x.rank y.rank⟩

instance : IsTrans RankedCall rankLe := ⟨fun _ _ _ => Nat.le_trans⟩

/-- Python sorted() by the allele field (stable). -/
def alleleSort (l : List RankedCall) : List RankedCall := List.insertionSort allLe l

/-- Python list.sort() by the rank field (stable, in place at the call site). -/
def rankSort (l : List RankedCall) : List RankedCall := List.insertionSort rankLe l

/-- The per-sample input artifacts discoverable for one sample: content of the
first report file, lines of the estimation result file, DictReader rows of
the OptiType TSV, lines of the HLA-LA bestguess file; none when missing. -/
structure SampleFS where
  hisatReport : Option Str
  estimationLines : Option (List Str)
  optitypeRows : Option (List (List (Str × Str)))
  hlalaLines : Option (List Str)

/-- The per-sample record built by collect_sample_data: one gene-keyed dict
per method, empty when the method's artifact is missing. -/
structure SampleData where
  sample : Str
  hisat : List (Str × List RankedCall)
  estimation : List (Str × List Str)
  optitype : List (Str × List Str)
  hlala : List (Str × List Str)
deriving DecidableEq

/-- collect_sample_data (merge_results.py): parse each method's artifact when
present, leaving the method's dict empty otherwise. -/
def collect_sample_data (name : Str) (fs : SampleFS) : SampleData :=
  { sample := name
    hisat := match fs.hisatReport with
      | some c => parse_hisat_report c
      | none => []
    estimation := match fs.estimationLines with
      | some ls => parse_estimation_result ls
      | none => []
    optitype := parse_optitype_result fs.optitypeRows
    hlala := parse_hlala_result fs.hlalaLines }

/-- Observable outcome of merge_results.main: the process exit code, whether
the missing-root error message was printed, and the per-sample records for
which comparison files were generated. -/
structure MergeOutcome where
  exitCode : Nat
  errorReported : Bool
  records : List SampleData
deriving DecidableEq

/-- merge_results.main: when the root directory is missing, print the error
and return (a plain return from main, so the process still exits 0);
otherwise build one record per discovered sample directory and generate one
file per record. -/
def merge_main (rootExists : Bool) (sampleDirs : List Str) (fs : Str → SampleFS) :
    MergeOutcome :=
  if rootExists then
    { exitCode := 0
      errorReported := false
      records := sampleDirs.map (fun s => collect_sample_data s (fs s)) }
  else
    { exitCode := 0, errorReported := true, records := [] }

/-- collect_all_results (generate_html_table.py), over the sorted sample
directories each paired with the content of its first report file (none when
the directory has no report file): samples whose report is missing or parses
to an empty dict are skipped; returns the data keyed by sample, the sorted
kept sample names, and the sorted union of genes. -/
def collect_all_results (dirs : List (Str × Option Str)) :
    List (Str × List (Str × List RankedCall)) × List Str × List Str :=
  let r := dirs.foldl
    (fun (acc : List (Str × List (Str × List RankedCall)) × List Str) d =>
      match d.2 with
      | none => acc
      | some content =>
          let results := parse_report_file content
          if results ≠ [] then (dset acc.1 d.1 results, acc.2 ++ [d.1]) else acc)
    ([], [])
  let genes := (r.1.foldl (fun gs sd => gs ++ dkeys sd.2) []).dedup
  (r.1, pySortedStr r.2, pySortedStr genes)

/-- Observable outcome of generate_html_table.main. -/
structure GhtmlOutcome where
  exitCode : Nat
  errorReported : Bool
  noDataReported : Bool
  generated : Bool
deriving DecidableEq

/-- generate_html_table.main: a missing root makes collect_all_results print
the error and return None, after which main prints that no data was found
and returns (exit 0 either way); with data present the table is generated. -/
def ghtml_main (rootExists : Bool) (dirs : List (Str × Option Str)) : GhtmlOutcome :=
  if rootExists then
    let r := collect_all_results dirs
    if r.1 = [] then
      { exitCode := 0, errorReported := false, noDataReported := true, generated := false }
    else
      { exitCode := 0, errorReported := false, noDataReported := false, generated := true }
  else
    { exitCode := 0, errorReported := true, noDataReported := true, generated := false }

/-- One row of the per-sample Gene times Method table of generate_sample_html:
exactly the four fixed method columns, none rendering the No data cell. -/
structure GeneRow where
  optitype : Option (List Str)
  hlala : Option (List Str)
  estimation : Option (List Str)
  hisat : Option (List RankedCall)
deriving DecidableEq

/-- Cell of one plain-string method column: No data when the gene is absent
or its list empty, else the alleles sorted alphabetically. -/
def cellSorted (o : Option (List Str)) : Option (List Str) :=
  match o with
  | some l => if l = [] then none else some (pySortedStr l)
  | none => none

/-- One gene row of generate_sample_html: each method cell sorted
alphabetically, the ranked column sorted by allele name. -/
def sampleGeneRow (d : SampleData) (gene : Str) : GeneRow :=
  { optitype := cellSorted (dfind d.optitype gene)
    hlala := cellSorted (dfind d.hlala gene)
    estimation := cellSorted (dfind d.estimation gene)
    hisat :=
      match dfind d.hisat gene with
      | some l => if l = [] then none else some (alleleSort l)
      | none => none }

/-- The row labels of generate_sample_html: the sorted union of the genes of
all four methods of the sample. -/
def sampleAllGenes (d : SampleData) : List Str :=
  pySortedStr ((dkeys d.hisat ++ dkeys d.estimation ++ dkeys d.optitype ++ dkeys d.hlala).dedup)

/-- The table body of generate_sample_html (merge_results.py), as the list of
gene rows; the surrounding markup and styling carry no further data. -/
def generate_sample_html (d : SampleData) : List (Str × GeneRow) :=
  (sampleAllGenes d).map (fun g => (g, sampleGeneRow d g))

/-- One cell of the cross-sample table of generate_html_table: a dash when
the sample or gene is absent, else the rank-sorted calls. -/
inductive HCell where
  | dash : HCell
  | ranked : List RankedCall → HCell
deriving DecidableEq

/-- Cell step of generate_html_table: when the sample holds the gene, its
call list is sorted by rank in place (mutating the stored list) and
displayed; the possibly updated data is returned with the cell. -/
def renderCell (all_data : List (Str × List (Str × List RankedCall))) (sample gene : Str) :
    List (Str × List (Str × List RankedCall)) × HCell :=
  match dfind all_data sample with
  | some sd =>
      match dfind sd gene with
      | some l => (dset all_data sample (dset sd gene (rankSort l)), HCell.ranked (rankSort l))
      | none => (all_data, HCell.dash)
  | none => (all_data, HCell.dash)

/-- Row loop of generate_html_table over the samples of one gene, threading
the mutated data. -/
def renderGeneRow (all_data : List (Str × List (Str × List RankedCall))) (gene : Str)
    (samples : List Str) :
    List (Str × List (Str × List RankedCall)) × List HCell :=
  samples.foldl
    (fun acc s =>
      let r := renderCell acc.1 s gene
      (r.1, acc.2 ++ [r.2]))
    (all_data, [])

/-- generate_html_table (generate_html_table.py): the table body as gene rows
of sample cells, together with the data as it stands after rendering (the
in-place rank sorts make this differ from the input in general). -/
def generate_html_table (all_data : List (Str × List (Str × List RankedCall)))
    (samples genes : List Str) :
    List (Str × List (Str × List RankedCall)) × List (Str × List HCell) :=
  genes.foldl
    (fun acc gene =>
      let r := renderGeneRow acc.1 gene samples
      (r.1, acc.2 ++ [(gene, r.2)]))
    (all_data, [])

theorem dfind_dset_self {β : Type} :
    ∀ (d : List (Str × β)) (k : Str) (v : β), dfind (dset d k v) k = some v
  | [], k, v => by simp [dset, dfind]
  | (a, b) :: rest, k, v => by
      by_cases h : a = k
      · simp [dset, dfind, h]
      · simp only [dset, dfind, if_neg h]
        exact dfind_dset_self rest k v

theorem dfind_dset_ne {β : Type} :
    ∀ (d : List (Str × β)) (k : Str) (v : β) (q : Str), q ≠ k →
      dfind (dset d k v) q = dfind d q
  | [], k, v, q, h => by
      simp [dset, dfind, Ne.symm h]
  | (a, b) :: rest, k, v, q, h => by
      by_cases ha : a = k
      · subst ha
        simp [dset, dfind, Ne.symm h]
      · simp only [dset, if_neg ha, dfind]
        by_cases haq : a = q
        · simp [haq]
        · simp only [if_neg haq]
          exact dfind_dset_ne rest k v q h

theorem dfind_dset_cases {β : Type} :
    ∀ (d : List (Str × β)) (k : Str) (v : β) (q : Str) (l : β),
      dfind (dset d k v) q = some l → l = v ∨ dfind d q = some l
  | [], k, v, q, l => by
      simp only [dset, dfind]
      by_cases h : k = q
      · rw [if_pos h]
        intro hl
        exact Or.inl (Option.some.inj hl).symm
      · rw [if_neg h]
        intro hl
        simp [dfind] at hl
  | (a, b) :: rest, k, v, q, l => by
      by_cases ha : a = k
      · subst ha
        simp only [dset, if_pos rfl, dfind]
        by_cases haq : a = q
        · rw [if_pos haq, if_pos haq]
          intro hl
          exact Or.inl (Option.some.inj hl).symm
        · rw [if_neg haq, if_neg haq]
          intro hl
          exact Or.inr hl
      · simp only [dset, if_neg ha, dfind]
        by_cases haq : a = q
        · rw [if_pos haq, if_pos haq]
          intro hl
          exact Or.inr hl
        · rw [if_neg haq, if_neg haq]
          exact dfind_dset_cases rest k v q l

theorem dfind_mem {β : Type} :
    ∀ (d : List (Str × β)) (k : Str) (v : β), dfind d k = some v → (k, v) ∈ d
  | [], k, v => by simp [dfind]
  | (a, b) :: rest, k, v => by
      simp only [dfind]
      by_cases h : a = k
      · subst h
        rw [if_pos rfl]
        intro hv
        have hb : b = v := Option.some.inj hv
        subst hb
        exact List.mem_cons_self _ _
      · rw [if_neg h]
        intro hv
        exact List.mem_cons_of_mem _ (dfind_mem rest k v hv)

theorem pstrip_nil : pstrip [] = [] := rfl

theorem pstrip_of_ws (s : Str) (h : ∀ c ∈ s, isWS c = true) : pstrip s = [] := by
  have h1 : s.dropWhile isWS = [] := List.dropWhile_eq_nil_iff.mpr h
  simp [pstrip, h1]

theorem isWS_not_digit (c : Char) (h : isWS c = true) : isDigitCh c = false := by
  simp only [isWS, Bool.or_eq_true, decide_eq_true_eq] at h
  rcases h with ((((h | h) | h) | h) | h) | h <;> subst h <;> decide

theorem matchAt_ws_head (c : Char) (rest : Str) (h : isWS c = true) :
    matchAt (c :: rest) = none := by
  simp [matchAt, List.takeWhile_cons, isWS_not_digit c h]

theorem scanFrom_ws : ∀ (fuel : Nat) (s : Str),
    (∀ c ∈ s, isWS c = true) → scanFrom fuel s = []
  | 0, [], _ => by simp [scanFrom]
  | 0, _ :: _, _ => by simp [scanFrom]
  | Nat.succ _, [], _ => by simp [scanFrom]
  | Nat.succ f, c :: rest, h => by
      have hc := h c (List.mem_cons_self c rest)
      simp only [scanFrom, matchAt_ws_head c rest hc]
      exact scanFrom_ws f rest (fun x hx => h x (List.mem_cons_of_mem c hx))

theorem findRanked_ws (s : Str) (h : ∀ c ∈ s, isWS c = true) : findRanked s = [] :=
  scanFrom_ws s.length s h

theorem estStep_blank (results : List (Str × List Str)) (line : Str)
    (h : pstrip line = []) : estStep results line = results := by
  simp [estStep, h]

theorem hlalaStep_blank (results : List (Str × List Str)) (line : Str)
    (h : pstrip line = []) : hlalaStep results line = results := by
  simp [hlalaStep, h]

theorem dfind_reportStep_self (acc : List (Str × List RankedCall)) (m : RMatch) :
    dfind (reportStep acc m) m.gene =
      some ((dfind acc m.gene).getD [] ++ [reportCall m]) := by
  unfold reportStep
  cases h : dfind acc m.gene with
  | none => simp [h, dfind_dset_self]
  | some l => simp [h, dfind_dset_self]

theorem dfind_reportStep_ne (acc : List (Str × List RankedCall)) (m : RMatch)
    (q : Str) (h : q ≠ m.gene) : dfind (reportStep acc m) q = dfind acc q := by
  unfold reportStep
  cases hd : dfind acc m.gene with
  | none => simp [hd, dfind_dset_ne _ _ _ _ h]
  | some l => simp [hd, dfind_dset_ne _ _ _ _ h]

theorem dfind_hisatStep_self (acc : List (Str × List RankedCall)) (m : RMatch) :
    dfind (hisatStep acc m) m.gene =
      some ((dfind acc m.gene).getD [] ++
        (if digitsToNat m.rank ≤ 2 then [hisatCall m] else [])) := by
  unfold hisatStep
  by_cases hr : digitsToNat m.rank ≤ 2
  · cases h : dfind acc m.gene with
    | none => simp [h, hr, dfind_dset_self]
    | some l => simp [h, hr, dfind_dset_self]
  · cases h : dfind acc m.gene with
    | none => simp [h, hr, dfind_dset_self]
    | some l => simp [h, hr]

theorem dfind_hisatStep_ne (acc : List (Str × List RankedCall)) (m : RMatch)
    (q : Str) (h : q ≠ m.gene) : dfind (hisatStep acc m) q = dfind acc q := by
  unfold hisatStep
  by_cases hr : digitsToNat m.rank ≤ 2 <;>
    cases hd : dfind acc m.gene <;>
      simp [hd, hr, dfind_dset_ne _ _ _ _ h]

theorem report_foldl :
    ∀ (ms : List RMatch) (acc : List (Str × List RankedCall)) (g : Str),
      dfind (ms.foldl reportStep acc) g =
        if ms.filter (fun x => x.gene = g) = [] then dfind acc g
        else some ((dfind acc g).getD [] ++
          ((ms.filter (fun x => x.gene = g)).map reportCall))
  | [], acc, g => by simp
  | m :: ms, acc, g => by
      simp only [List.foldl_cons]
      rw [report_foldl ms (reportStep acc m) g]
      by_cases hg : m.gene = g
      · have hs : dfind (reportStep acc m) g =
            some ((dfind acc g).getD [] ++ [reportCall m]) := by
          rw [← hg]
          exact dfind_reportStep_self acc m
        have hfc : (m :: ms).filter (fun x => x.gene = g) =
            m :: ms.filter (fun x => x.gene = g) :=
          List.filter_cons_of_pos (by simp [hg])
        by_cases hf : ms.filter (fun x => x.gene = g) = []
        · rw [if_pos hf, hs, hfc, hf]
          simp
        · rw [if_neg hf, hs, hfc]
          simp
      · have hne : g ≠ m.gene := fun he => hg he.symm
        rw [dfind_reportStep_ne acc m g hne]
        have hfc : (m :: ms).filter (fun x => x.gene = g) =
            ms.filter (fun x => x.gene = g) :=
          List.filter_cons_of_neg (by simp [hg])
        rw [hfc]

theorem hisat_foldl :
    ∀ (ms : List RMatch) (acc : List (Str × List RankedCall)) (g : Str),
      dfind (ms.foldl hisatStep acc) g =
        if ms.filter (fun x => x.gene = g) = [] then dfind acc g
        else some ((dfind acc g).getD [] ++
          (((ms.filter (fun x => x.gene = g)).filter
              (fun x => digitsToNat x.rank ≤ 2)).map hisatCall))
  | [], acc, g => by simp
  | m :: ms, acc, g => by
      simp only [List.foldl_cons]
      rw [hisat_foldl ms (hisatStep acc m) g]
      by_cases hg : m.gene = g
      · have hs : dfind (hisatStep acc m) g =
            some ((dfind acc g).getD [] ++
              (if digitsToNat m.rank ≤ 2 then [hisatCall m] else [])) := by
          rw [← hg]
          exact dfind_hisatStep_self acc m
        have hfc : (m :: ms).filter (fun x => x.gene = g) =
            m :: ms.filter (fun x => x.gene = g) :=
          List.filter_cons_of_pos (by simp [hg])
        by_cases hf : ms.filter (fun x => x.gene = g) = []
        · rw [if_pos hf, hs, hfc, hf]
          by_cases hr : digitsToNat m.rank ≤ 2 <;>
            simp [hr, List.filter_cons]
        · rw [if_neg hf, hs, hfc]
          by_cases hr : digitsToNat m.rank ≤ 2 <;>
            simp [hr, List.filter_cons]
      · have hne : g ≠ m.gene := fun he => hg he.symm
        rw [dfind_hisatStep_ne acc m g hne]
        have hfc : (m :: ms).filter (fun x => x.gene = g) =
            ms.filter (fun x => x.gene = g) :=
          List.filter_cons_of_neg (by simp [hg])
        rw [hfc]

/-- Nested lookup of the stored call list of one (sample, gene) slot. -/
def lookup2 (d : List (Str × List (Str × List RankedCall))) (s g : Str) :
    Option (List RankedCall) :=
  match dfind d s with
  | some sd => dfind sd g
  | none => none

theorem rankSort_idem (l : List RankedCall) : rankSort (rankSort l) = rankSort l :=
  List.Sorted.insertionSort_eq (List.sorted_insertionSort rankLe l)

theorem opt_rankSort_idem (o : Option (List RankedCall)) :
    (o.map rankSort).map rankSort = o.map rankSort := by
  cases o <;> simp [rankSort_idem]

theorem rankSort_comp : rankSort ∘ rankSort = rankSort :=
  funext rankSort_idem

theorem lookup2_renderCell (d : List (Str × List (Str × List RankedCall)))
    (s g q r : Str) :
    lookup2 (renderCell d s g).1 q r =
      if q = s ∧ r = g then (lookup2 d q r).map rankSort else lookup2 d q r := by
  unfold renderCell
  cases hds : dfind d s with
  | none =>
      by_cases hq : q = s
      · subst hq
        by_cases hr : r = g
        · subst hr
          simp [lookup2, hds]
        · simp [lookup2, hr]
      · simp [lookup2, hq]
  | some sd =>
      cases hg : dfind sd g with
      | none =>
          by_cases hq : q = s
          · subst hq
            by_cases hr : r = g
            · subst hr
              simp [lookup2, hds, hg]
            · simp [lookup2, hg, hr]
          · simp [lookup2, hg, hq]
      | some l =>
          by_cases hq : q = s
          · subst hq
            by_cases hr : r = g
            · subst hr
              simp [lookup2, hds, hg, dfind_dset_self]
            · simp [lookup2, hds, hg, hr, dfind_dset_self,
                dfind_dset_ne _ _ _ _ hr]
          · simp [lookup2, hg, hq, dfind_dset_ne _ _ _ _ hq]

theorem renderGeneRow_fst (g : Str) :
    ∀ (samples : List Str) (d : List (Str × List (Str × List RankedCall)))
      (cells : List HCell),
      (samples.foldl
        (fun acc s =>
          let r := renderCell acc.1 s g
          (r.1, acc.2 ++ [r.2])) (d, cells)).1 =
        samples.foldl (fun d s => (renderCell d s g).1) d
  | [], _, _ => rfl
  | s :: rest, d, cells => by
      simp only [List.foldl_cons]
      exact renderGeneRow_fst g rest _ _

theorem renderGeneRow_state (d : List (Str × List (Str × List RankedCall)))
    (g : Str) (samples : List Str) :
    (renderGeneRow d g samples).1 =
      samples.foldl (fun d s => (renderCell d s g).1) d := by
  unfold renderGeneRow
  exact renderGeneRow_fst g samples d []

theorem lookup2_rowFold (g : Str) :
    ∀ (samples : List Str) (d : List (Str × List (Str × List RankedCall)))
      (q r : Str),
      lookup2 (samples.foldl (fun d s => (renderCell d s g).1) d) q r =
        if q ∈ samples ∧ r = g then (lookup2 d q r).map rankSort
        else lookup2 d q r
  | [], d, q, r => by simp
  | s :: rest, d, q, r => by
      simp only [List.foldl_cons]
      rw [lookup2_rowFold g rest _ q r, lookup2_renderCell d s g q r]
      by_cases hr : r = g
      · subst hr
        by_cases hq : q = s
        · subst hq
          by_cases hmem : q ∈ rest
          · simp [hmem, rankSort_comp]
          · simp [hmem]
        · simp [List.mem_cons, hq]
      · simp [hr]

theorem ghtmlTable_fst (samples : List Str) :
    ∀ (genes : List Str) (d : List (Str × List (Str × List RankedCall)))
      (rows : List (Str × List HCell)),
      (genes.foldl
        (fun acc gene =>
          let r := renderGeneRow acc.1 gene samples
          (r.1, acc.2 ++ [(gene, r.2)])) (d, rows)).1 =
        genes.foldl (fun d gene => (renderGeneRow d gene samples).1) d
  | [], _, _ => rfl
  | gene :: rest, d, rows => by
      simp only [List.foldl_cons]
      exact ghtmlTable_fst samples rest _ _

theorem lookup2_tableFold (samples : List Str) :
    ∀ (genes : List Str) (d : List (Str × List (Str × List RankedCall)))
      (q r : Str),
      lookup2 (genes.foldl (fun d gene => (renderGeneRow d gene samples).1) d) q r =
        if q ∈ samples ∧ r ∈ genes then (lookup2 d q r).map rankSort
        else lookup2 d q r
  | [], d, q, r => by simp
  | gene :: rest, d, q, r => by
      simp only [List.foldl_cons]
      rw [lookup2_tableFold samples rest _ q r]
      have hrow : lookup2 (renderGeneRow d gene samples).1 q r =
          if q ∈ samples ∧ r = gene then (lookup2 d q r).map rankSort
          else lookup2 d q r := by
        rw [renderGeneRow_state, lookup2_rowFold]
      rw [hrow]
      by_cases hqs : q ∈ samples
      · by_cases hrg : r = gene
        · subst hrg
          by_cases hmem : r ∈ rest
          · simp [hqs, hmem, rankSort_comp]
          · simp [hqs, hmem]
        · simp [hqs, hrg, List.mem_cons]
      · simp [hqs]

theorem lookup2_generate_html_table (d : List (Str × List (Str × List RankedCall)))
    (samples genes : List Str) (q r : Str) :
    lookup2 (generate_html_table d samples genes).1 q r =
      if q ∈ samples ∧ r ∈ genes then (lookup2 d q r).map rankSort
      else lookup2 d q r := by
  have h1 : (generate_html_table d samples genes).1 =
      genes.foldl (fun d gene => (renderGeneRow d gene samples).1) d := by
    unfold generate_html_table
    exact ghtmlTable_fst samples genes d []
  rw [h1, lookup2_tableFold]

/-- The gene key a line contributes to parse_estimation_result: none for a
blank or short line. -/
def estKey (line : Str) : Option Str :=
  if pstrip line = [] then none
  else
    match splitTab (pstrip line) with
    | g :: _ :: _ :: _ => some (pstrip g)
    | _ => none

theorem dfind_estStep_eq (results : List (Str × List Str)) (line g a1 a2 : Str)
    (rest : List Str) (hne : pstrip line ≠ [])
    (hsplit : splitTab (pstrip line) = g :: a1 :: a2 :: rest) :
    dfind (estStep results line) (pstrip g) =
      some (estCalls (pstrip a1) (pstrip a2)) := by
  simp only [estStep]
  rw [if_neg hne, hsplit]
  exact dfind_dset_self _ _ _

theorem dfind_estStep_ne (results : List (Str × List Str)) (line k : Str)
    (h : estKey line ≠ some k) : dfind (estStep results line) k = dfind results k := by
  by_cases hb : pstrip line = []
  · rw [estStep_blank results line hb]
  · have h2 : (match splitTab (pstrip line) with
        | g :: _ :: _ :: _ => some (pstrip g)
        | _ => none) ≠ some k := by
      have h3 := h
      unfold estKey at h3
      rwa [if_neg hb] at h3
    simp only [estStep]
    rw [if_neg hb]
    rcases hsp : splitTab (pstrip line) with _ | ⟨g1, _ | ⟨b1, _ | ⟨c1, rest1⟩⟩⟩
    · rfl
    · rfl
    · rfl
    · rw [hsp] at h2
      exact dfind_dset_ne _ _ _ _ (fun he => h2 (by rw [he]))

theorem est_fold_skip :
    ∀ (lines : List Str) (d : List (Str × List Str)) (k : Str),
      (∀ t ∈ lines, estKey t ≠ some k) →
      dfind (lines.foldl estStep d) k = dfind d k
  | [], _, _, _ => rfl
  | l :: rest, d, k, h => by
      simp only [List.foldl_cons]
      rw [est_fold_skip rest _ k (fun t ht => h t (List.mem_cons_of_mem l ht))]
      exact dfind_estStep_ne d l k (h l (List.mem_cons_self l rest))

theorem est_fold_blank :
    ∀ (lines : List Str) (d : List (Str × List Str)),
      (∀ l ∈ lines, pstrip l = []) → lines.foldl estStep d = d
  | [], _, _ => rfl
  | l :: rest, d, h => by
      simp only [List.foldl_cons, estStep_blank d l (h l (List.mem_cons_self l rest))]
      exact est_fold_blank rest d (fun t ht => h t (List.mem_cons_of_mem l ht))

theorem hlala_fold_blank :
    ∀ (lines : List Str) (d : List (Str × List Str)),
      (∀ l ∈ lines, pstrip l = []) → lines.foldl hlalaStep d = d
  | [], _, _ => rfl
  | l :: rest, d, h => by
      simp only [List.foldl_cons, hlalaStep_blank d l (h l (List.mem_cons_self l rest))]
      exact hlala_fold_blank rest d (fun t ht => h t (List.mem_cons_of_mem l ht))

theorem dfind_optGeneStep_ne (row : List (Str × Str)) (results : List (Str × List Str))
    (gene q : Str) (h : q ≠ gene) :
    dfind (optGeneStep row results gene) q = dfind results q := by
  unfold optGeneStep
  by_cases ha : optCollect row gene = [] <;> simp [ha, dfind_dset_ne _ _ _ _ h]

theorem dfind_optFold_notMem (row : List (Str × Str)) :
    ∀ (genes : List Str) (results : List (Str × List Str)) (q : Str), q ∉ genes →
      dfind (genes.foldl (optGeneStep row) results) q = dfind results q
  | [], _, _, _ => rfl
  | gene :: rest, results, q, h => by
      simp only [List.foldl_cons]
      rw [dfind_optFold_notMem row rest _ q (fun hm => h (List.mem_cons_of_mem _ hm))]
      exact dfind_optGeneStep_ne row results gene q
        (fun he => h (he ▸ List.mem_cons_self _ _))

theorem dfind_optFold_mem (row : List (Str × Str)) :
    ∀ (genes : List Str) (results : List (Str × List Str)) (q : Str),
      q ∈ genes → genes.Nodup →
      dfind (genes.foldl (optGeneStep row) results) q =
        if optCollect row q = [] then dfind results q else some (optCollect row q)
  | [], _, q, h, _ => absurd h (List.not_mem_nil q)
  | gene :: rest, results, q, h, hnd => by
      simp only [List.foldl_cons]
      by_cases hq : q = gene
      · subst hq
        have hnotin : q ∉ rest := (List.nodup_cons.mp hnd).1
        rw [dfind_optFold_notMem row rest _ q hnotin]
        unfold optGeneStep
        by_cases hc : optCollect row q = []
        · simp [hc]
        · simp [hc, dfind_dset_self]
      · have hmem : q ∈ rest := (List.mem_cons.mp h).resolve_left hq
        rw [dfind_optFold_mem row rest _ q hmem (List.nodup_cons.mp hnd).2]
        rw [dfind_optGeneStep_ne row results gene q hq]

theorem optFold_nonempty (row : List (Str × Str)) :
    ∀ (genes : List Str) (results : List (Str × List Str)),
      (∀ g l, dfind results g = some l → l ≠ []) →
      ∀ g l, dfind (genes.foldl (optGeneStep row) results) g = some l → l ≠ []
  | [], _, h => h
  | gene :: rest, results, h => by
      simp only [List.foldl_cons]
      refine optFold_nonempty row rest _ ?_
      intro g l hl
      unfold optGeneStep at hl
      by_cases hc : optCollect row gene = []
      · simp only [hc, ne_eq, not_true_eq_false, if_false] at hl
        exact h g l hl
      · simp only [ne_eq, hc, not_false_eq_true, if_true] at hl
        rcases dfind_dset_cases results gene (optCollect row gene) g l hl with he | he
        · exact he ▸ hc
        · exact h g l he

theorem optRows_nonempty :
    ∀ (rows : List (List (Str × Str))) (results : List (Str × List Str)),
      (∀ g l, dfind results g = some l → l ≠ []) →
      ∀ g l, dfind (rows.foldl optStep results) g = some l → l ≠ []
  | [], _, h => h
  | row :: rest, results, h => by
      simp only [List.foldl_cons]
      exact optRows_nonempty rest _ (optFold_nonempty row genesABC results h)

/-- The spec's description of the TSV-column collection: the non-empty
stripped values of the 1 and 2 columns of the gene, prefixed, in column
order, duplicates preserved. -/
def specOptCollect (row : List (Str × Str)) (gene : Str) : List Str :=
  oneTwo.filterMap (fun i =>
    match dfind row (gene ++ i) with
    | some v => if pstrip v = [] then none else some (strHLA ++ pstrip v)
    | none => none)

theorem optCollect_eq_spec (row : List (Str × Str)) (gene : Str) :
    optCollect row gene = specOptCollect row gene := by
  unfold optCollect specOptCollect oneTwo
  simp only [List.foldl_cons, List.foldl_nil, List.filterMap_cons, List.filterMap_nil]
  cases h1 : dfind row (gene ++ ofStr "1") with
  | none =>
      cases h2 : dfind row (gene ++ ofStr "2") with
      | none => rfl
      | some v =>
          by_cases hv : pstrip v = []
          · have hv0 : v = [] ∨ v ≠ [] := em _
            rcases hv0 with hv0 | hv0 <;> simp [pstrip_nil, hv0, hv]
          · have hv0 : v ≠ [] := fun h0 => hv (h0 ▸ pstrip_nil)
            simp [pstrip_nil, hv0, hv]
  | some v =>
      by_cases hv : pstrip v = []
      · have hstep : (if v ≠ [] then
            (if pstrip v ≠ [] then ([] : List Str) ++ [strHLA ++ pstrip v] else [])
            else []) = [] := by
          by_cases hv0 : v = [] <;> simp [pstrip_nil, hv0, hv]
        cases h2 : dfind row (gene ++ ofStr "2") with
        | none => simp [pstrip_nil, hv]
        | some w =>
            by_cases hw : pstrip w = []
            · have hw0 : w = [] ∨ w ≠ [] := em _
              rcases hw0 with hw0 | hw0 <;>
                by_cases hv0 : v = [] <;> simp [pstrip_nil, hv0, hv, hw0, hw]
            · have hw0 : w ≠ [] := fun h0 => hw (h0 ▸ pstrip_nil)
              by_cases hv0 : v = [] <;> simp [pstrip_nil, hv0, hv, hw0, hw]
      · have hv0 : v ≠ [] := fun h0 => hv (h0 ▸ pstrip_nil)
        cases h2 : dfind row (gene ++ ofStr "2") with
        | none => simp [pstrip_nil, hv0, hv]
        | some w =>
            by_cases hw : pstrip w = []
            · have hw0 : w = [] ∨ w ≠ [] := em _
              rcases hw0 with hw0 | hw0 <;> simp [pstrip_nil, hv0, hv, hw0, hw]
            · have hw0 : w ≠ [] := fun h0 => hw (h0 ▸ pstrip_nil)
              simp [pstrip_nil, hv0, hv, hw0, hw]

theorem optCollect_ws (row : List (Str × Str)) (gene : Str)
    (h : ∀ kv ∈ row, ∀ c ∈ kv.2, isWS c = true) :
    optCollect row gene = [] := by
  rw [optCollect_eq_spec]
  unfold specOptCollect oneTwo
  simp only [List.filterMap_cons, List.filterMap_nil]
  cases h1 : dfind row (gene ++ ofStr "1") with
  | none =>
      cases h2 : dfind row (gene ++ ofStr "2") with
      | none => rfl
      | some v =>
          have hv : pstrip v = [] :=
            pstrip_of_ws v (fun c hc => h _ (dfind_mem _ _ _ h2) c hc)
          simp [hv]
  | some v =>
      have hv : pstrip v = [] :=
        pstrip_of_ws v (fun c hc => h _ (dfind_mem _ _ _ h1) c hc)
      cases h2 : dfind row (gene ++ ofStr "2") with
      | none => simp [hv]
      | some w =>
          have hw : pstrip w = [] :=
            pstrip_of_ws w (fun c hc => h _ (dfind_mem _ _ _ h2) c hc)
          simp [hv, hw]

theorem optStep_ws (results : List (Str × List Str)) (row : List (Str × Str))
    (h : ∀ kv ∈ row, ∀ c ∈ kv.2, isWS c = true) :
    optStep results row = results := by
  unfold optStep genesABC
  simp [optGeneStep, optCollect_ws row _ h]

theorem optRows_ws :
    ∀ (rows : List (List (Str × Str))) (results : List (Str × List Str)),
      (∀ row ∈ rows, ∀ kv ∈ row, ∀ c ∈ kv.2, isWS c = true) →
      rows.foldl optStep results = results
  | [], _, _ => rfl
  | row :: rest, results, h => by
      simp only [List.foldl_cons,
        optStep_ws results row (h row (List.mem_cons_self row rest))]
      exact optRows_ws rest results (fun r hr => h r (List.mem_cons_of_mem row hr))

/-- C1: counterexample.  On a report whose only regex match has rank 3, the
match is found by the pattern but dropped inside parse_hisat_report itself
(gene A ends up with an empty call list), refuting the claim that the
ranked-report extractor returns every match and that the restriction to
ranks 1 and 2 happens only in the caller. -/
theorem c1_counterexample :
    findRanked (ofStr "3 ranked A*01:01 (abundance: 10.00%)") ≠ [] ∧
    parse_hisat_report (ofStr "3 ranked A*01:01 (abundance: 10.00%)") =
      [(ofStr "A", [])] := by
  decide

/-- C1 (amended): parse_report_file returns every regex match, grouped by
gene in text order; parse_hisat_report creates a key for every matched gene
but keeps, inside the extractor itself, only the matches of rank at most 2. -/
theorem c1_amended_extractors (content : Str) (g : Str) :
    dfind (parse_report_file content) g =
      (if (findRanked content).filter (fun x => x.gene = g) = [] then none
       else some (((findRanked content).filter (fun x => x.gene = g)).map reportCall)) ∧
    dfind (parse_hisat_report content) g =
      (if (findRanked content).filter (fun x => x.gene = g) = [] then none
       else some ((((findRanked content).filter (fun x => x.gene = g)).filter
           (fun x => digitsToNat x.rank ≤ 2)).map hisatCall)) := by
  constructor
  · unfold parse_report_file
    rw [report_foldl]
    by_cases hf : (findRanked content).filter (fun x => x.gene = g) = [] <;>
      simp [hf, dfind]
  · unfold parse_hisat_report
    rw [hisat_foldl]
    by_cases hf : (findRanked content).filter (fun x => x.gene = g) = [] <;>
      simp [hf, dfind]

/-- The one-match ranked report of the aggregation scenario. -/
def s1Report : Str := ofStr "1 ranked A*01:01 (abundance: 55.50%)"

/-- A sample with no discoverable artifacts at all. -/
def emptyFS : SampleFS :=
  { hisatReport := none, estimationLines := none,
    optitypeRows := none, hlalaLines := none }

/-- The two-sample scenario: S1 has only the one-match ranked report, S2 has
no files at all. -/
def fsS1S2 : Str → SampleFS := fun s =>
  if s = ofStr "S1" then
    { hisatReport := some s1Report, estimationLines := none,
      optitypeRows := none, hlalaLines := none }
  else emptyFS

/-- C2: counterexample.  generate_html_table's collect_all_results drops the
file-less sample S2 entirely: its kept sample list is just S1, so the
resulting corpus has 1 sample, not the 2 the claim asserts. -/
theorem c2_counterexample :
    (collect_all_results [(ofStr "S1", some s1Report), (ofStr "S2", none)]).2.1 =
      [ofStr "S1"] ∧
    (collect_all_results [(ofStr "S1", some s1Report), (ofStr "S2", none)]).2.1.length ≠ 2 := by
  decide

/-- C2 (amended): merge_results' aggregation includes every discovered sample
as a valid, possibly empty record — in the two-sample scenario its corpus
has 2 records, S1 carrying the rank-1 HLA-A*01:01 call at abundance 55.5
and S2 empty — whereas collect_all_results (generate_html_table) omits a
sample whose report is missing or yields zero matches, keeping only S1. -/
theorem c2_amended_aggregation :
    (∀ (dirs : List Str) (fs : Str → SampleFS),
        (merge_main true dirs fs).records.length = dirs.length) ∧
    (∀ (dirs : List Str) (fs : Str → SampleFS),
        (merge_main true dirs fs).records.map SampleData.sample = dirs) ∧
    (merge_main true [ofStr "S1", ofStr "S2"] fsS1S2).records =
      [{ sample := ofStr "S1",
         hisat := [(ofStr "A",
           [{ rank := 1, allele := ofStr "HLA-A*01:01", abundance := mkRat 111 2 }])],
         estimation := [], optitype := [], hlala := [] },
       { sample := ofStr "S2", hisat := [], estimation := [],
         optitype := [], hlala := [] }] ∧
    (collect_all_results [(ofStr "S1", some s1Report), (ofStr "S2", none)]).2.1.length = 1 := by
  refine ⟨?_, ?_, by decide, by decide⟩
  · intro dirs fs
    simp [merge_main]
  · intro dirs fs
    have h1 : (merge_main true dirs fs).records =
        dirs.map (fun s => collect_sample_data s (fs s)) := by
      simp [merge_main]
    rw [h1, List.map_map]
    exact List.map_id dirs

/-- C3: evaluation of the code at the failing input.  The extractor is
documented (and specified) to strip exactly the single trailing G or N
marker, but the allele 02:07N keeps its N, while the allele G*01:02:01G of
the HLA-G gene loses its interior leading G along with the trailing one. -/
theorem c3_code_behaviour :
    parse_hlala_result (some
      [ofStr "Locus\tQ\tAllele", ofStr "A\tx\t02:07N", ofStr "G\tx\tG*01:02:01G"]) =
      [(ofStr "A", [ofStr "HLA-02:07N"]), (ofStr "G", [ofStr "HLA-*01:02:01"])] := by
  decide

/-- C4: counterexample.  With a missing root both entry points report the
error and abort, but the process completes with exit status 0 — a success
status, not the non-zero-equivalent failure the claim asserts. -/
theorem c4_counterexample :
    (merge_main false [] (fun _ => emptyFS)).exitCode = 0 ∧
    (merge_main false [] (fun _ => emptyFS)).errorReported = true ∧
    (ghtml_main false []).exitCode = 0 ∧
    (ghtml_main false []).errorReported = true := by
  decide

/-- C4 (amended): a missing root aborts the run (no records, nothing
generated) and reports the error, but the process still exits 0; with the
root present the run also exits 0 and processes every discovered sample
even when samples contribute no data. -/
theorem c4_amended_exit_behaviour :
    ∀ (dirs : List Str) (fs : Str → SampleFS) (gdirs : List (Str × Option Str)),
      (merge_main false dirs fs).exitCode = 0 ∧
      (merge_main false dirs fs).errorReported = true ∧
      (merge_main false dirs fs).records = [] ∧
      (merge_main true dirs fs).exitCode = 0 ∧
      (merge_main true dirs fs).errorReported = false ∧
      (merge_main true dirs fs).records.length = dirs.length ∧
      (ghtml_main false gdirs).exitCode = 0 ∧
      (ghtml_main false gdirs).errorReported = true ∧
      (ghtml_main false gdirs).generated = false ∧
      (ghtml_main true gdirs).exitCode = 0 ∧
      (ghtml_main true gdirs).errorReported = false := by
  intro dirs fs gdirs
  refine ⟨by simp [merge_main], by simp [merge_main], by simp [merge_main],
    by simp [merge_main], by simp [merge_main], by simp [merge_main],
    by simp [ghtml_main], by simp [ghtml_main], by simp [ghtml_main], ?_, ?_⟩
  · by_cases h : (collect_all_results gdirs).1 = [] <;> simp [ghtml_main, h]
  · by_cases h : (collect_all_results gdirs).1 = [] <;> simp [ghtml_main, h]

/-- C5: in the delimited-tuple extractor every call kept for a line with at
least 3 columns comes from its two allele columns and is never empty, the
dash sentinel or the Not typed sentinel; a line with at least 3 columns
assigns the gene exactly the non-sentinel calls, and the spec's example line
yields gene A with the single call A*01:01. -/
theorem c5_sentinels_omitted :
    (∀ a1 a2 x, x ∈ estCalls a1 a2 →
        (x = a1 ∨ x = a2) ∧ x ≠ [] ∧ x ≠ strDash ∧ x ≠ strNotTyped) ∧
    (∀ (results : List (Str × List Str)) (line g a1 a2 : Str) (rest : List Str),
        pstrip line ≠ [] →
        splitTab (pstrip line) = g :: a1 :: a2 :: rest →
        dfind (estStep results line) (pstrip g) =
          some (estCalls (pstrip a1) (pstrip a2))) ∧
    parse_estimation_result [ofStr "A\tA*01:01\tNot typed"] =
      [(ofStr "A", [ofStr "A*01:01"])] := by
  refine ⟨?_, ?_, by decide⟩
  · intro a1 a2 x hx
    unfold estCalls at hx
    rcases List.mem_append.mp hx with hx | hx
    · by_cases h1 : a1 ≠ [] ∧ a1 ≠ strDash ∧ a1 ≠ strNotTyped
      · rw [if_pos h1] at hx
        have hx1 : x = a1 := List.mem_singleton.mp hx
        subst hx1
        exact ⟨Or.inl rfl, h1⟩
      · rw [if_neg h1] at hx
        exact absurd hx (List.not_mem_nil x)
    · by_cases h2 : a2 ≠ [] ∧ a2 ≠ strDash ∧ a2 ≠ strNotTyped
      · rw [if_pos h2] at hx
        have hx2 : x = a2 := List.mem_singleton.mp hx
        subst hx2
        exact ⟨Or.inr rfl, h2⟩
      · rw [if_neg h2] at hx
        exact absurd hx (List.not_mem_nil x)
  · intro results line g a1 a2 rest hne hsplit
    exact dfind_estStep_eq results line g a1 a2 rest hne hsplit

/-- C5: witness, applying the theorem at a concrete line with one sentinel. -/
theorem c5_witness :
    ((ofStr "07:02" = ofStr "07:02" ∨ ofStr "07:02" = ofStr "-") ∧
      ofStr "07:02" ≠ [] ∧ ofStr "07:02" ≠ strDash ∧ ofStr "07:02" ≠ strNotTyped) ∧
    dfind (estStep [] (ofStr "B\t07:02\t-")) (pstrip (ofStr "B")) =
      some (estCalls (pstrip (ofStr "07:02")) (pstrip (ofStr "-"))) :=
  ⟨c5_sentinels_omitted.1 (ofStr "07:02") (ofStr "-") (ofStr "07:02") (by decide),
   c5_sentinels_omitted.2.1 [] (ofStr "B\t07:02\t-") (ofStr "B") (ofStr "07:02")
     (ofStr "-") [] (by decide) (by decide)⟩

/-- The spec's TSV example row: A columns 02:01 and 03:01, B columns empty,
C columns both 07:02. -/
def rowEx : List (Str × Str) :=
  [(ofStr "A1", ofStr "02:01"), (ofStr "A2", ofStr "03:01"),
   (ofStr "B1", ofStr ""), (ofStr "B2", ofStr ""),
   (ofStr "C1", ofStr "07:02"), (ofStr "C2", ofStr "07:02")]

/-- C6: the TSV-column extractor maps each of the fixed genes A, B, C to its
collected columns exactly when any are non-empty, and absent otherwise; the
collection is precisely the non-empty stripped 1/2 column values with the
HLA- prefix, duplicates preserved in column order; no gene is ever present
with an empty list; and on the spec's example row gene B is omitted
entirely while C keeps its duplicate value twice. -/
theorem c6_tsv_columns :
    (∀ (row : List (Str × Str)) (g : Str), g ∈ genesABC →
        dfind (parse_optitype_result (some [row])) g =
          if optCollect row g = [] then none else some (optCollect row g)) ∧
    (∀ (row : List (Str × Str)) (g : Str), optCollect row g = specOptCollect row g) ∧
    (∀ (rows : List (List (Str × Str))) (g : Str) (l : List Str),
        dfind (parse_optitype_result (some rows)) g = some l → l ≠ []) ∧
    parse_optitype_result (some [rowEx]) =
      [(ofStr "A", [ofStr "HLA-02:01", ofStr "HLA-03:01"]),
       (ofStr "C", [ofStr "HLA-07:02", ofStr "HLA-07:02"])] := by
  refine ⟨?_, optCollect_eq_spec, ?_, by decide⟩
  · intro row g hg
    show dfind ([row].foldl optStep []) g = _
    simp only [List.foldl_cons, List.foldl_nil]
    unfold optStep
    rw [dfind_optFold_mem row genesABC [] g hg (by decide)]
    by_cases hc : optCollect row g = [] <;> simp [hc, dfind]
  · intro rows g l h
    exact optRows_nonempty rows []
      (fun g0 l0 h0 => absurd h0 (by simp [dfind])) g l h

/-- C6: witness, applying the theorem at the example row with gene B (zero
non-empty columns) and at the duplicate-preserving result list. -/
theorem c6_witness :
    dfind (parse_optitype_result (some [rowEx])) (ofStr "B") =
      (if optCollect rowEx (ofStr "B") = [] then none
       else some (optCollect rowEx (ofStr "B"))) ∧
    ([ofStr "HLA-02:01", ofStr "HLA-03:01"] : List Str) ≠ [] :=
  ⟨c6_tsv_columns.1 rowEx (ofStr "B") (by decide),
   c6_tsv_columns.2.2.1 [rowEx] (ofStr "A")
     [ofStr "HLA-02:01", ofStr "HLA-03:01"] (by decide)⟩

/-- C7: counterexample.  Rendering the cross-sample table sorts each
rendered gene's call list in place by rank: after generate_html_table runs
on a corpus whose single call list is stored in non-rank order, the stored
corpus differs from the one built by aggregation, refuting the claim that
rendering leaves the corpus exactly as built. -/
theorem c7_counterexample :
    (generate_html_table
      [(ofStr "S", [(ofStr "A",
        [{ rank := 2, allele := ofStr "b", abundance := mkRat 10 1 },
         { rank := 1, allele := ofStr "a", abundance := mkRat 20 1 }])])]
      [ofStr "S"] [ofStr "A"]).1 ≠
    [(ofStr "S", [(ofStr "A",
      [{ rank := 2, allele := ofStr "b", abundance := mkRat 10 1 },
       { rank := 1, allele := ofStr "a", abundance := mkRat 20 1 }])])] := by
  decide

/-- C7 (amended): rendering the cross-sample table leaves every slot outside
the rendered sample and gene sets untouched, and replaces each rendered
slot's stored call list by its rank-sorted version — a permutation of the
original calls, so no stored call value is edited or lost, but the stored
order is changed. -/
theorem c7_amended_rendering (d : List (Str × List (Str × List RankedCall)))
    (samples genes : List Str) (q r : Str) :
    lookup2 (generate_html_table d samples genes).1 q r =
      (if q ∈ samples ∧ r ∈ genes then (lookup2 d q r).map rankSort
       else lookup2 d q r) ∧
    ∀ l : List RankedCall, (rankSort l).Perm l :=
  ⟨lookup2_generate_html_table d samples genes q r,
   fun l => List.perm_insertionSort rankLe l⟩

/-- C8: on empty or whitespace-only input each of the four extractors
returns an empty result: the ranked-report extractors find no matches, the
delimited-tuple and fixed-column-text extractors skip every blank line, and
the TSV-column extractor collects nothing from whitespace-only values.
All extractors are total functions, so no run can raise. -/
theorem c8_empty_whitespace :
    (∀ s : Str, (∀ c ∈ s, isWS c = true) →
        parse_report_file s = [] ∧ parse_hisat_report s = []) ∧
    (∀ lines : List Str, (∀ l ∈ lines, ∀ c ∈ l, isWS c = true) →
        parse_estimation_result lines = []) ∧
    (∀ rows : List (List (Str × Str)),
        (∀ row ∈ rows, ∀ kv ∈ row, ∀ c ∈ kv.2, isWS c = true) →
        parse_optitype_result (some rows) = []) ∧
    (∀ lines : List Str, (∀ l ∈ lines, ∀ c ∈ l, isWS c = true) →
        parse_hlala_result (some lines) = []) := by
  refine ⟨?_, ?_, ?_, ?_⟩
  · intro s h
    constructor
    · show (findRanked s).foldl reportStep [] = []
      rw [findRanked_ws s h]
      rfl
    · show (findRanked s).foldl hisatStep [] = []
      rw [findRanked_ws s h]
      rfl
  · intro lines h
    exact est_fold_blank lines [] (fun l hl => pstrip_of_ws l (h l hl))
  · intro rows h
    exact optRows_ws rows [] h
  · intro lines h
    show (lines.drop 1).foldl hlalaStep [] = []
    exact hlala_fold_blank _ []
      (fun l hl => pstrip_of_ws l (h l (List.mem_of_mem_drop hl)))

/-- C8: witness, applying the theorem at concrete whitespace-only inputs. -/
theorem c8_witness :
    (parse_report_file (ofStr "  \n ") = [] ∧ parse_hisat_report (ofStr "  \n ") = []) ∧
    parse_estimation_result [ofStr " ", ofStr "\t"] = [] ∧
    parse_optitype_result (some [[(ofStr "A1", ofStr " ")]]) = [] ∧
    parse_hlala_result (some [ofStr " ", ofStr "\t "]) = [] :=
  ⟨c8_empty_whitespace.1 (ofStr "  \n ") (by decide),
   c8_empty_whitespace.2.1 [ofStr " ", ofStr "\t"] (by decide),
   c8_empty_whitespace.2.2.1 [[(ofStr "A1", ofStr " ")]] (by decide),
   c8_empty_whitespace.2.2.2 [ofStr " ", ofStr "\t "] (by decide)⟩

/-- C9: the per-sample Gene times Method table has one row per gene of the
union of the four methods' genes, in sorted order without duplicates; the
columns are the fixed four-method set by construction of GeneRow; and every
non-empty cell holds a permutation of the stored alleles sorted
lexicographically — the ranked column by allele name, not by rank. -/
theorem c9_gene_method_matrix (d : SampleData) :
    ((generate_sample_html d).map Prod.fst = sampleAllGenes d) ∧
    List.Sorted strLe (sampleAllGenes d) ∧
    (sampleAllGenes d).Nodup ∧
    (∀ g, g ∈ sampleAllGenes d ↔
        g ∈ dkeys d.hisat ∨ g ∈ dkeys d.estimation ∨
        g ∈ dkeys d.optitype ∨ g ∈ dkeys d.hlala) ∧
    (∀ g l, (sampleGeneRow d g).optitype = some l →
        List.Sorted strLe l ∧ ∃ l0, dfind d.optitype g = some l0 ∧ l.Perm l0) ∧
    (∀ g l, (sampleGeneRow d g).hlala = some l →
        List.Sorted strLe l ∧ ∃ l0, dfind d.hlala g = some l0 ∧ l.Perm l0) ∧
    (∀ g l, (sampleGeneRow d g).estimation = some l →
        List.Sorted strLe l ∧ ∃ l0, dfind d.estimation g = some l0 ∧ l.Perm l0) ∧
    (∀ g l, (sampleGeneRow d g).hisat = some l →
        List.Sorted allLe l ∧ ∃ l0, dfind d.hisat g = some l0 ∧ l.Perm l0) := by
  refine ⟨?_, ?_, ?_, ?_, ?_, ?_, ?_, ?_⟩
  · show List.map Prod.fst
        ((sampleAllGenes d).map (fun g => (g, sampleGeneRow d g))) = sampleAllGenes d
    rw [List.map_map]
    exact List.map_id (sampleAllGenes d)
  · exact List.sorted_insertionSort strLe _
  · exact ((List.perm_insertionSort strLe _).nodup_iff).mpr (List.nodup_dedup _)
  · intro g
    simp [sampleAllGenes, pySortedStr, List.mem_dedup, List.mem_append, or_assoc]
  · intro g l h
    simp only [sampleGeneRow, cellSorted] at h
    cases hfind : dfind d.optitype g with
    | none => rw [hfind] at h; cases h
    | some l0 =>
        rw [hfind] at h
        by_cases h0 : l0 = []
        · simp [h0] at h
        · simp only [if_neg h0, Option.some.injEq] at h
          subst h
          exact ⟨List.sorted_insertionSort strLe l0, l0, rfl,
            List.perm_insertionSort strLe l0⟩
  · intro g l h
    simp only [sampleGeneRow, cellSorted] at h
    cases hfind : dfind d.hlala g with
    | none => rw [hfind] at h; cases h
    | some l0 =>
        rw [hfind] at h
        by_cases h0 : l0 = []
        · simp [h0] at h
        · simp only [if_neg h0, Option.some.injEq] at h
          subst h
          exact ⟨List.sorted_insertionSort strLe l0, l0, rfl,
            List.perm_insertionSort strLe l0⟩
  · intro g l h
    simp only [sampleGeneRow, cellSorted] at h
    cases hfind : dfind d.estimation g with
    | none => rw [hfind] at h; cases h
    | some l0 =>
        rw [hfind] at h
        by_cases h0 : l0 = []
        · simp [h0] at h
        · simp only [if_neg h0, Option.some.injEq] at h
          subst h
          exact ⟨List.sorted_insertionSort strLe l0, l0, rfl,
            List.perm_insertionSort strLe l0⟩
  · intro g l h
    simp only [sampleGeneRow] at h
    cases hfind : dfind d.hisat g with
    | none => rw [hfind] at h; cases h
    | some l0 =>
        rw [hfind] at h
        by_cases h0 : l0 = []
        · simp [h0] at h
        · simp only [if_neg h0, Option.some.injEq] at h
          subst h
          exact ⟨List.sorted_insertionSort allLe l0, l0, rfl,
            List.perm_insertionSort allLe l0⟩

/-- A concrete sample record whose optitype list is stored unsorted and
whose ranked calls are stored in reverse rank order. -/
def d9 : SampleData :=
  { sample := ofStr "S"
    hisat := [(ofStr "A",
      [{ rank := 2, allele := ofStr "b", abundance := mkRat 1 1 },
       { rank := 1, allele := ofStr "a", abundance := mkRat 2 1 }])]
    estimation := []
    optitype := [(ofStr "A", [ofStr "y", ofStr "x"])]
    hlala := [] }

/-- C9: witness, applying the theorem's cell clauses at a concrete sample. -/
theorem c9_witness :
    (List.Sorted strLe [ofStr "x", ofStr "y"] ∧
      ∃ l0, dfind d9.optitype (ofStr "A") = some l0 ∧
        List.Perm [ofStr "x", ofStr "y"] l0) ∧
    (List.Sorted allLe
        [{ rank := 1, allele := ofStr "a", abundance := mkRat 2 1 },
         { rank := 2, allele := ofStr "b", abundance := mkRat 1 1 }] ∧
      ∃ l0, dfind d9.hisat (ofStr "A") = some l0 ∧
        List.Perm
          [{ rank := 1, allele := ofStr "a", abundance := mkRat 2 1 },
           { rank := 2, allele := ofStr "b", abundance := mkRat 1 1 }] l0) :=
  ⟨(c9_gene_method_matrix d9).2.2.2.2.1 (ofStr "A") [ofStr "x", ofStr "y"] (by decide),
   (c9_gene_method_matrix d9).2.2.2.2.2.2.2 (ofStr "A")
     [{ rank := 1, allele := ofStr "a", abundance := mkRat 2 1 },
      { rank := 2, allele := ofStr "b", abundance := mkRat 1 1 }] (by decide)⟩

/-- C10: in the delimited-tuple extractor a qualifying line (non-blank, at
least 3 columns) assigns its gene a fresh list, so after any earlier lines
the gene's final value is exactly the calls of its last qualifying line;
the concrete two-line input shows the reset, and the fixed-column-text
extractor appends on a repeated gene instead. -/
theorem c10_repeated_gene_resets :
    (∀ (pre ts : List Str) (line g a1 a2 : Str) (rest : List Str),
        pstrip line ≠ [] →
        splitTab (pstrip line) = g :: a1 :: a2 :: rest →
        (∀ t ∈ ts, estKey t ≠ some (pstrip g)) →
        dfind (parse_estimation_result (pre ++ line :: ts)) (pstrip g) =
          some (estCalls (pstrip a1) (pstrip a2))) ∧
    parse_estimation_result [ofStr "A\t01:01\t02:02", ofStr "A\t03:03\t-"] =
      [(ofStr "A", [ofStr "03:03"])] ∧
    parse_hlala_result (some [ofStr "hdr", ofStr "A\tx\t01:01", ofStr "A\tx\t02:02"]) =
      [(ofStr "A", [ofStr "HLA-01:01", ofStr "HLA-02:02"])] := by
  refine ⟨?_, by decide, by decide⟩
  intro pre ts line g a1 a2 rest hne hsplit hts
  unfold parse_estimation_result
  rw [List.foldl_append, List.foldl_cons]
  rw [est_fold_skip ts _ (pstrip g) hts]
  exact dfind_estStep_eq _ line g a1 a2 rest hne hsplit

/-- C10: witness, applying the theorem with an earlier line for the same
gene before the last qualifying line. -/
theorem c10_witness :
    dfind (parse_estimation_result
        ([ofStr "A\tX\tY"] ++ (ofStr "A\t01:01\t02:02") :: [ofStr "B\t-\t-"]))
      (pstrip (ofStr "A")) =
      some (estCalls (pstrip (ofStr "01:01")) (pstrip (ofStr "02:02"))) :=
  c10_repeated_gene_resets.1 [ofStr "A\tX\tY"] [ofStr "B\t-\t-"]
    (ofStr "A\t01:01\t02:02") (ofStr "A") (ofStr "01:01") (ofStr "02:02") []
    (by decide) (by decide) (by decide)
